import Mathlib

/-!
Shallow embedding of the knee CT segmentation pipeline of this repository
(src/components/segmentation.py, src/components/analysis.py,
src/components/main.py), together with theorems settling the claims about it.

Modelling conventions:
* numpy float arrays are modelled over `ℚ`; integer label volumes over `Int`.
* a 3-D array is modelled as a total map `Int × Int × Int → _`; a finite array
  is embedded with value `0` / `false` outside its extent, which matches the
  zero padding scipy's binary morphology assumes at the borders.
* external library calls (scipy / skimage) appearing in the pipeline:
  - `ndimage.binary_dilation` / erosion / closing with an all-ones box are given
    their exact set semantics over offset lists (anchor at the structure centre,
    index `k / 2` of each axis);
  - `binary_fill_holes`, `remove_small_objects` and `gaussian_filter1d` depend
    on connected components of a finite grid resp. floating-point convolution;
    they are taken as arbitrary mask / list transformers (universally
    quantified parameters), since no claim settled below depends on their
    behaviour.
* the unseeded numpy uniform draws of `generate_random_mask` are modelled by an
  explicit draw table `rnd : Int → Idx3 → ℚ` giving the `np.random.random`
  sample attached to each voxel of each label's expansion ring; actual numpy
  draws lie in `[0, 1)`.
-/

abbrev Idx3 := Int × Int × Int

abbrev Mask3 := Idx3 → Bool

abbrev Vol := Idx3 → Int

abbrev Mask2 := Int → Int → Bool

/-- A label value of a segmentation volume: background 0, tibia 1, femur 2. -/
def labelOK (n : Int) : Prop := n = 0 ∨ n = 1 ∨ n = 2

/-- Offsets covered by an all-ones 1-D structuring element of size `k`,
anchored at its centre index `k / 2` (scipy convention). -/
def offsets1 (k : Nat) : List Int :=
  (List.range k).map fun i : Nat => (i : Int) - ((k / 2 : Nat) : Int)

/-- `scipy.ndimage.binary_dilation` with an all-ones box of shape
`(k1, k2, k3)`: a voxel is set iff some box offset hits a set input voxel. -/
def dilate (k1 k2 k3 : Nat) (m : Mask3) (v : Idx3) : Bool :=
  (offsets1 k1).any fun d1 =>
    (offsets1 k2).any fun d2 =>
      (offsets1 k3).any fun d3 =>
        m (v.1 + d1, v.2.1 + d2, v.2.2 + d3)

/-- `scipy.ndimage.binary_erosion` with an all-ones box of shape
`(k1, k2, k3)`. -/
def erode (k1 k2 k3 : Nat) (m : Mask3) (v : Idx3) : Bool :=
  (offsets1 k1).all fun d1 =>
    (offsets1 k2).all fun d2 =>
      (offsets1 k3).all fun d3 =>
        m (v.1 + d1, v.2.1 + d2, v.2.2 + d3)

/-- `scipy.ndimage.binary_closing` with an all-ones cube of side `k`:
dilation followed by erosion. -/
def closing3 (k : Nat) (m : Mask3) : Mask3 :=
  erode k k k (dilate k k k m)

/-- Kernel size per axis of `expand_segmentation`:
`max(1, int(np.ceil(expansion_mm / vs)))`. -/
def kernelSize (expansion_mm vs : ℚ) : Nat :=
  max 1 (Int.ceil (expansion_mm / vs)).toNat

/-- `expand_segmentation(segmentation_volume, voxel_sizes, expansion_mm)`:
dilate the tibia (1) and femur (2) masks independently by an anisotropic
all-ones box, revert both labels to their pre-dilation state on the overlap of
the two dilations, then write tibia then femur into a zero volume. -/
def expand_segmentation (seg : Vol) (vs : ℚ × ℚ × ℚ) (emm : ℚ) : Vol :=
  fun v =>
    let k1 := kernelSize emm vs.1
    let k2 := kernelSize emm vs.2.1
    let k3 := kernelSize emm vs.2.2
    let tibia_seg : Mask3 := fun w => seg w == 1
    let femur_seg : Mask3 := fun w => seg w == 2
    let tibia_expanded := dilate k1 k2 k3 tibia_seg
    let femur_expanded := dilate k1 k2 k3 femur_seg
    let overlap : Mask3 := fun w => tibia_expanded w && femur_expanded w
    let tibia_final : Mask3 := fun w => if overlap w then tibia_seg w else tibia_expanded w
    let femur_final : Mask3 := fun w => if overlap w then femur_seg w else femur_expanded w
    if femur_final v then 2 else if tibia_final v then 1 else 0

/-- The clamp `max(0.0, min(1.0, random_value))` of `generate_random_mask`. -/
def clamp01 (q : ℚ) : ℚ := max 0 (min 1 q)

/-- `generate_random_mask(original, expanded, random_value)`: per label, keep
every original voxel, and keep an expansion-ring voxel (expanded but not
original) exactly when its uniform draw is `< random_value` (clamped to
`[0,1]`); label 1 is written first, label 2 second, so 2 wins collisions.
`rnd l v` is the numpy uniform draw attached to voxel `v` of label `l`. -/
def generate_random_mask (orig expd : Vol) (rv : ℚ) (rnd : Int → Idx3 → ℚ) : Vol :=
  fun v =>
    let rvc := clamp01 rv
    let keep : Int → Bool := fun l =>
      (orig v == l) || ((expd v == l) && !(orig v == l) && decide (rnd l v < rvc))
    if keep 2 then 2 else if keep 1 then 1 else 0

/-- `apply_3d_postprocessing(segmentation_volume)`: per label, fill holes,
binary-close with a 3×3×3 all-ones cube, remove small objects, then write
tibia then femur into a zero volume. `fill_holes` (`ndimage.binary_fill_holes`)
and `rm1000` (`morphology.remove_small_objects`, min_size 1000) are external
library transformers, taken as parameters. -/
def apply_3d_postprocessing (fill_holes rm1000 : Mask3 → Mask3) (vol : Vol) : Vol :=
  let tibia_seg := rm1000 (closing3 3 (fill_holes fun v => vol v == 1))
  let femur_seg := rm1000 (closing3 3 (fill_holes fun v => vol v == 2))
  fun v => if femur_seg v then 2 else if tibia_seg v then 1 else 0

/-- `fallback_segmentation(data, start_slice, end_slice)`: per slice in the
range, threshold at 150, split at the slice-height midpoint, remove small
objects per side, write tibia then femur; then close each label with a 5×5×5
cube, fill holes, remove small objects, and write tibia then femur into a
zero volume. `rm50` / `fill_holes` / `rm1000` are the external library
transformers (`remove_small_objects` min_size 50 resp. 1000,
`binary_fill_holes`); `h` is the slice height `slice_data.shape[1]`. -/
def fallback_segmentation (rm50 : Mask2 → Mask2) (fill_holes rm1000 : Mask3 → Mask3)
    (data : Idx3 → ℚ) (startS endS : Int) (h : Nat) : Vol :=
  let bone : Int → Mask2 := fun i x z => decide (150 < data (x, i, z))
  let mid : Int := (h / 2 : Nat)
  let femurSlice : Int → Mask2 := fun i => rm50 fun x z => bone i x z && decide (z < mid)
  let tibiaSlice : Int → Mask2 := fun i => rm50 fun x z => bone i x z && decide (mid ≤ z)
  let segVol : Vol := fun v =>
    if startS ≤ v.2.1 ∧ v.2.1 < endS then
      if femurSlice v.2.1 v.1 v.2.2 then 2
      else if tibiaSlice v.2.1 v.1 v.2.2 then 1
      else 0
    else 0
  let tibia_seg := rm1000 (fill_holes (closing3 5 fun v => segVol v == 1))
  let femur_seg := rm1000 (fill_holes (closing3 5 fun v => segVol v == 2))
  fun v => if femur_seg v then 2 else if tibia_seg v then 1 else 0

/-- A 2-D coronal slice `data[:, i, :]` as a finite intensity array of shape
`(w, h)`; values are read only inside the bounds. -/
structure CSlice where
  w : Nat
  h : Nat
  data : Int → Int → ℚ

/-- In-bounds predicate of a slice. -/
def CSlice.inB (s : CSlice) (x z : Int) : Bool :=
  decide (0 ≤ x) && decide (x < (s.w : Int)) && decide (0 ≤ z) && decide (z < (s.h : Int))

/-- `slice_data > bone_threshold` as a mask (false outside the array). -/
def thresholdMask (s : CSlice) (thr : ℚ) : Mask2 :=
  fun x z => s.inB x z && decide (thr < s.data x z)

/-- Offsets of `skimage.morphology.disk(2)`: pixels at Euclidean distance at
most 2 from the centre. -/
def diskOffsets : List (Int × Int) :=
  ((offsets1 5).map fun dx => (offsets1 5).map fun dz => (dx, dz)).flatten.filter
    fun d => decide (d.1 * d.1 + d.2 * d.2 ≤ 4)

/-- 2-D binary dilation with an explicit offset list. -/
def dilate2 (offs : List (Int × Int)) (m : Mask2) : Mask2 :=
  fun x z => offs.any fun d => m (x + d.1) (z + d.2)

/-- 2-D binary erosion with an explicit offset list. -/
def erode2 (offs : List (Int × Int)) (m : Mask2) : Mask2 :=
  fun x z => offs.all fun d => m (x + d.1) (z + d.2)

/-- `morphology.binary_closing(mask, morphology.disk(2))`. -/
def closing2 (m : Mask2) : Mask2 :=
  erode2 diskOffsets (dilate2 diskOffsets m)

/-- `create_bone_mask(slice_data, bone_threshold, min_size=50)`: threshold,
remove small objects (`rm50`, external), then binary closing with disk(2). -/
def create_bone_mask (rm50 : Mask2 → Mask2) (s : CSlice) (thr : ℚ) : Mask2 :=
  closing2 (rm50 (thresholdMask s thr))

/-- `np.sum(bone_mask, axis=0)`: the vertical profile, one count per column
`z < h`, counting set pixels with `x < w`. -/
def verticalProfile (m : Mask2) (w h : Nat) : List ℚ :=
  (List.range h).map fun z => (((List.range w).filter fun x => m (x : Int) (z : Int)).length : ℚ)

/-- `smooth_profile[height // 3 : 2 * height // 3]`: the middle third of the
smoothed profile (python slice semantics). -/
def middleProfile (sp : List ℚ) (height : Nat) : List ℚ :=
  (sp.drop (height / 3)).take (2 * height / 3 - height / 3)

/-- Indices `j` of `range(2, len(p) - 2)` with `p[j] < p[j-1]` and
`p[j] < p[j+1]`: the candidate local minima of `find_joint_position`. -/
def localMinIndices (p : List ℚ) : List Nat :=
  (List.range p.length).filter fun j =>
    decide (2 ≤ j) && decide (j + 2 < p.length) &&
    decide (p.getD j 0 < p.getD (j - 1) 0) && decide (p.getD j 0 < p.getD (j + 1) 0)

/-- `idxs[np.argmin([p[j] for j in idxs])]`: the first index of `idxs` whose
profile value is minimal. -/
def argminAt (p : List ℚ) : List Nat → Nat
  | [] => 0
  | j :: js => js.foldl (fun b k => if p.getD k 0 < p.getD b 0 then k else b) j

/-- `find_joint_position(bone_mask, height)`: smooth the vertical profile
(`smooth` stands for `ndimage.gaussian_filter1d(·, sigma=5)`, an external
float convolution taken as a parameter), restrict to the middle third, and if
that window is longer than 5 and has candidate local minima return
`middle_start` plus the lowest-valued one; otherwise fall back to
`height // 2`. -/
def find_joint_position (smooth : List ℚ → List ℚ) (m : Mask2) (w h : Nat) : Nat :=
  let sp := smooth (verticalProfile m w h)
  let mp := middleProfile sp h
  if 5 < mp.length then
    if (localMinIndices mp).isEmpty then h / 2
    else h / 3 + argminAt mp (localMinIndices mp)
  else h / 2

/-- `np.max(slice_data)` over the (nonempty) array. -/
def maxIntensity (s : CSlice) : ℚ :=
  match ((List.range s.w).flatMap fun x => (List.range s.h).map fun z => s.data (x : Int) (z : Int)) with
  | [] => 0
  | q :: qs => qs.foldl max q

/-- `segment_slice(slice_data, bone_threshold)`: build the bone mask; if the
slice maximum is below threshold return `(None, None)`; otherwise split the
bone mask at the joint position (femur keeps columns before it, tibia keeps
columns at and after it) and remove small objects per side (`rm100`,
external, min_size 100). -/
def segment_slice (rm50 rm100 : Mask2 → Mask2) (smooth : List ℚ → List ℚ)
    (s : CSlice) (thr : ℚ) : Option Mask2 × Option Mask2 :=
  let bone := create_bone_mask rm50 s thr
  if maxIntensity s < thr then (none, none)
  else
    let jp : Int := (find_joint_position smooth bone s.w s.h : Nat)
    let femur := rm100 fun x z => bone x z && decide (z < jp)
    let tibia := rm100 fun x z => bone x z && decide (jp ≤ z)
    (some femur, some tibia)

/-- One step of the Volume Assembler loop in `segment_knee`: if both masks are
present, paint tibia then femur into plane `y = i` of the label volume
(femur written second, so it wins collisions); otherwise leave the volume
unchanged. -/
def assemble_step (vol : Vol) (i : Int) (r : Option Mask2 × Option Mask2) : Vol :=
  match r with
  | (some femur, some tibia) => fun v =>
      if v.2.1 = i then
        if femur v.1 v.2.2 then 2
        else if tibia v.1 v.2.2 then 1
        else vol v
      else vol v
  | _ => vol

/-- A finite 3-D label volume of shape `(nx, ny, nz)`; `lab` is read only
inside the bounds. -/
structure Vol3 where
  nx : Nat
  ny : Nat
  nz : Nat
  lab : Nat → Nat → Nat → Int

/-- `np.where(segmentation_volume == 1)`: the tibia voxel index triples in
C (row-major) order. -/
def tibiaIndices (v : Vol3) : List (Nat × Nat × Nat) :=
  (List.range v.nx).flatMap fun x =>
    (List.range v.ny).flatMap fun y =>
      (List.range v.nz).filterMap fun z =>
        if v.lab x y z = 1 then some (x, y, z) else none

/-- Voxel-index to physical-mm conversion of `find_tibia_lowest_points`:
multiply each index by its voxel spacing. -/
def voxelToMm (vs : ℚ × ℚ × ℚ) (p : Nat × Nat × Nat) : ℚ × ℚ × ℚ :=
  ((p.1 : ℚ) * vs.1, (p.2.1 : ℚ) * vs.2.1, (p.2.2 : ℚ) * vs.2.2)

/-- Python `int()`: truncation toward zero. -/
def truncToInt (q : ℚ) : Int := if 0 ≤ q then ⌊q⌋ else ⌈q⌉

/-- Physical-mm to voxel-index conversion of `find_tibia_lowest_points`:
divide each coordinate by its voxel spacing and truncate with `int()`. -/
def mmToVoxel (vs : ℚ × ℚ × ℚ) (p : ℚ × ℚ × ℚ) : Int × Int × Int :=
  (truncToInt (p.1 / vs.1), truncToInt (p.2.1 / vs.2.1), truncToInt (p.2.2 / vs.2.2))

/-- `points[np.argmin(points[:, 2])]` on a possibly empty point list: the
first point of minimal third (Z) coordinate, if any. -/
def argminZ : List (ℚ × ℚ × ℚ) → Option (ℚ × ℚ × ℚ)
  | [] => none
  | p :: ps => some (ps.foldl (fun b q => if q.2.2 < b.2.2 then q else b) p)

/-- The mean of the first (X) coordinates of a point list
(`np.mean(tibia_points[:, 0])`). -/
def centerX (pts : List (ℚ × ℚ × ℚ)) : ℚ :=
  (pts.map fun p => p.1).sum / (pts.length : ℚ)

/-- `tibia_points`: the tibia voxel indices scaled to physical mm
coordinates. -/
def tibiaPts (v : Vol3) (vs : ℚ × ℚ × ℚ) : List (ℚ × ℚ × ℚ) :=
  (tibiaIndices v).map (voxelToMm vs)

/-- `lateral_points`: tibia points whose X coordinate is below the mean X. -/
def lateralPts (v : Vol3) (vs : ℚ × ℚ × ℚ) : List (ℚ × ℚ × ℚ) :=
  (tibiaPts v vs).filter fun p => decide (p.1 < centerX (tibiaPts v vs))

/-- `medial_points`: tibia points whose X coordinate is at or above the mean
X. -/
def medialPts (v : Vol3) (vs : ℚ × ℚ × ℚ) : List (ℚ × ℚ × ℚ) :=
  (tibiaPts v vs).filter fun p => decide (centerX (tibiaPts v vs) ≤ p.1)

/-- `find_tibia_lowest_points(segmentation_volume, voxel_sizes)`: if no voxel
is labelled 1 return four `None`s; otherwise scale the tibia voxel indices to
mm, split at the mean X coordinate into lateral (`< mean`) and medial
(`>= mean`), take each side's first point of minimal Z, and convert the chosen
points back to voxel indices. Returns
`(medial_mm, lateral_mm, medial_voxel, lateral_voxel)`. -/
def find_tibia_lowest_points (v : Vol3) (vs : ℚ × ℚ × ℚ) :
    Option (ℚ × ℚ × ℚ) × Option (ℚ × ℚ × ℚ) × Option (Int × Int × Int) × Option (Int × Int × Int) :=
  if tibiaIndices v = [] then (none, none, none, none)
  else
    (argminZ (medialPts v vs), argminZ (lateralPts v vs),
      (argminZ (medialPts v vs)).map (mmToVoxel vs),
      (argminZ (lateralPts v vs)).map (mmToVoxel vs))

/-! ### Helper lemmas -/

theorem labelOK_write (a b : Bool) :
    labelOK (if a then 2 else if b then 1 else 0) := by
  cases a <;> cases b <;> simp [labelOK]

theorem zero_mem_offsets1 (k : Nat) (hk : 1 ≤ k) : (0 : Int) ∈ offsets1 k := by
  show (0 : Int) ∈ (List.range k).map fun i : Nat => (i : Int) - ((k / 2 : Nat) : Int)
  refine List.mem_map.mpr ⟨k / 2, List.mem_range.mpr (Nat.div_lt_self hk Nat.one_lt_two), ?_⟩
  exact sub_self _

theorem dilate_extensive (k1 k2 k3 : Nat) (hk1 : 1 ≤ k1) (hk2 : 1 ≤ k2) (hk3 : 1 ≤ k3)
    (m : Mask3) (v : Idx3) (hm : m v = true) : dilate k1 k2 k3 m v = true := by
  simp only [dilate, List.any_eq_true]
  refine ⟨0, zero_mem_offsets1 k1 hk1, 0, zero_mem_offsets1 k2 hk2,
    0, zero_mem_offsets1 k3 hk3, ?_⟩
  simpa using hm

theorem one_le_kernelSize (emm vs : ℚ) : 1 ≤ kernelSize emm vs :=
  le_max_left 1 _

/-! ### Claim C1 -/

/-- Claim C1: every label volume produced by the 3-D Postprocessor, the
Fallback Segmenter, the Mask Expander and the Mask Randomizer assigns each
voxel exactly one label from `{0, 1, 2}`; in particular no voxel is
simultaneously tibia (1) and femur (2), for all inputs and for any behaviour
of the external hole-filling / small-object-removal library calls. -/
theorem c1_label_domain (fill rm1000 : Mask3 → Mask3) (rm50 : Mask2 → Mask2)
    (vol seg orig expd : Vol) (vs : ℚ × ℚ × ℚ) (emm rv : ℚ) (rnd : Int → Idx3 → ℚ)
    (data : Idx3 → ℚ) (startS endS : Int) (h : Nat) (v : Idx3) :
    labelOK (apply_3d_postprocessing fill rm1000 vol v) ∧
    labelOK (fallback_segmentation rm50 fill rm1000 data startS endS h v) ∧
    labelOK (expand_segmentation seg vs emm v) ∧
    labelOK (generate_random_mask orig expd rv rnd v) :=
  ⟨labelOK_write _ _, labelOK_write _ _, labelOK_write _ _, labelOK_write _ _⟩

/-- Pointwise characterization of `expand_segmentation` (definitional). -/
theorem expand_val (seg : Vol) (vs : ℚ × ℚ × ℚ) (emm : ℚ) (v : Idx3) :
    expand_segmentation seg vs emm v =
      if (if dilate (kernelSize emm vs.1) (kernelSize emm vs.2.1) (kernelSize emm vs.2.2)
                (fun w => seg w == 1) v &&
             dilate (kernelSize emm vs.1) (kernelSize emm vs.2.1) (kernelSize emm vs.2.2)
                (fun w => seg w == 2) v
          then seg v == 2
          else dilate (kernelSize emm vs.1) (kernelSize emm vs.2.1) (kernelSize emm vs.2.2)
                (fun w => seg w == 2) v) then 2
      else if (if dilate (kernelSize emm vs.1) (kernelSize emm vs.2.1) (kernelSize emm vs.2.2)
                    (fun w => seg w == 1) v &&
                  dilate (kernelSize emm vs.1) (kernelSize emm vs.2.1) (kernelSize emm vs.2.2)
                    (fun w => seg w == 2) v
               then seg v == 1
               else dilate (kernelSize emm vs.1) (kernelSize emm vs.2.1) (kernelSize emm vs.2.2)
                    (fun w => seg w == 1) v) then 1
      else 0 := rfl

/-! ### Claim C3 -/

/-- Claim C3: for every label volume, positive voxel spacing and
`expansion_mm ≥ 0`, the Mask Expander keeps every voxel originally labelled 1
resp. 2 at that label, and the overlap-revert collision rule removes only
contested voxels (reached by both dilations) that were not originally
labelled. -/
theorem c3_expander_monotone (seg : Vol) (vs : ℚ × ℚ × ℚ) (emm : ℚ)
    (_h1 : 0 < vs.1) (_h2 : 0 < vs.2.1) (_h3 : 0 < vs.2.2) (_he : 0 ≤ emm) (v : Idx3) :
    (seg v = 1 → expand_segmentation seg vs emm v = 1) ∧
    (seg v = 2 → expand_segmentation seg vs emm v = 2) ∧
    (dilate (kernelSize emm vs.1) (kernelSize emm vs.2.1) (kernelSize emm vs.2.2)
        (fun w => seg w == 1) v = true → expand_segmentation seg vs emm v ≠ 1 →
      dilate (kernelSize emm vs.1) (kernelSize emm vs.2.1) (kernelSize emm vs.2.2)
        (fun w => seg w == 2) v = true ∧ seg v ≠ 1) ∧
    (dilate (kernelSize emm vs.1) (kernelSize emm vs.2.1) (kernelSize emm vs.2.2)
        (fun w => seg w == 2) v = true → expand_segmentation seg vs emm v ≠ 2 →
      dilate (kernelSize emm vs.1) (kernelSize emm vs.2.1) (kernelSize emm vs.2.2)
        (fun w => seg w == 1) v = true ∧ seg v ≠ 2) := by
  have hk1 := one_le_kernelSize emm vs.1
  have hk2 := one_le_kernelSize emm vs.2.1
  have hk3 := one_le_kernelSize emm vs.2.2
  refine ⟨?_, ?_, ?_, ?_⟩
  · intro hv
    have htE : dilate (kernelSize emm vs.1) (kernelSize emm vs.2.1) (kernelSize emm vs.2.2)
        (fun w => seg w == 1) v = true :=
      dilate_extensive _ _ _ hk1 hk2 hk3 _ _ (by simp [hv])
    rw [expand_val, htE]
    cases hfE : dilate (kernelSize emm vs.1) (kernelSize emm vs.2.1) (kernelSize emm vs.2.2)
        (fun w => seg w == 2) v <;> simp [hv]
  · intro hv
    have hfE : dilate (kernelSize emm vs.1) (kernelSize emm vs.2.1) (kernelSize emm vs.2.2)
        (fun w => seg w == 2) v = true :=
      dilate_extensive _ _ _ hk1 hk2 hk3 _ _ (by simp [hv])
    rw [expand_val, hfE]
    cases htE : dilate (kernelSize emm vs.1) (kernelSize emm vs.2.1) (kernelSize emm vs.2.2)
        (fun w => seg w == 1) v <;> simp [hv]
  · intro htE hne
    rw [expand_val, htE] at hne
    cases hfE : dilate (kernelSize emm vs.1) (kernelSize emm vs.2.1) (kernelSize emm vs.2.2)
        (fun w => seg w == 2) v
    · rw [hfE] at hne
      simp at hne
    · refine ⟨rfl, fun hv1 => ?_⟩
      rw [hfE] at hne
      simp [hv1] at hne
  · intro hfE hne
    rw [expand_val, hfE] at hne
    cases htE : dilate (kernelSize emm vs.1) (kernelSize emm vs.2.1) (kernelSize emm vs.2.2)
        (fun w => seg w == 1) v
    · rw [htE] at hne
      simp at hne
    · refine ⟨rfl, fun hv2 => ?_⟩
      rw [htE] at hne
      simp [hv2] at hne

/-- A one-voxel tibia segmentation volume, used as concrete input below. -/
def exSeg1 : Vol := fun v => if v = (0, 0, 0) then 1 else 0

/-- Witness for C3 at a concrete input: the single tibia voxel of `exSeg1`
keeps label 1 after a 2 mm expansion at unit spacing. -/
theorem c3_witness :
    (0 : ℚ) < 1 ∧ (0 : ℚ) ≤ 2 ∧ exSeg1 (0, 0, 0) = 1 ∧
    expand_segmentation exSeg1 (1, 1, 1) 2 (0, 0, 0) = 1 :=
  ⟨by norm_num, by norm_num, by decide,
    (c3_expander_monotone exSeg1 (1, 1, 1) 2 (by norm_num) (by norm_num) (by norm_num)
      (by norm_num) (0, 0, 0)).1 (by decide)⟩

/-- Dilation by an all-ones 1×1×1 box (the origin alone) is the identity. -/
theorem dilate_one (m : Mask3) (v : Idx3) : dilate 1 1 1 m v = m v := by
  simp [dilate, offsets1, List.range_succ]

/-! ### Claim C9 -/

/-- Counterexample to claim C9 as stated: with `expansion_mm = 0` the kernel
size floors at 1 per axis, but the resulting 1×1×1 structuring element makes
dilation the identity, so the voxel adjacent to the single labelled voxel of
`exSeg1` stays background — the output does not dilate each label by 1 voxel
along each axis. -/
theorem c9_counterexample :
    kernelSize 0 1 = 1 ∧ exSeg1 (0, 0, 0) = 1 ∧ exSeg1 (1, 0, 0) = 0 ∧
    expand_segmentation exSeg1 (1, 1, 1) 0 (1, 0, 0) = 0 := by
  refine ⟨by norm_num [kernelSize], by decide, by decide, ?_⟩
  rw [expand_val]
  norm_num [kernelSize, dilate_one, exSeg1]

/-- Claim C9 (amended): given `expansion_mm = 0` the Mask Expander's kernel
size floors at 1 voxel per axis via `max(1, ks)`, and the resulting 1×1×1
structuring element makes dilation the identity, so the output is truly
identical to the input at every voxel carrying a legal label. -/
theorem c9_amended (seg : Vol) (vs : ℚ × ℚ × ℚ) :
    kernelSize 0 vs.1 = 1 ∧ kernelSize 0 vs.2.1 = 1 ∧ kernelSize 0 vs.2.2 = 1 ∧
    ∀ v : Idx3, labelOK (seg v) → expand_segmentation seg vs 0 v = seg v := by
  have e1 : kernelSize 0 vs.1 = 1 := by simp [kernelSize]
  have e2 : kernelSize 0 vs.2.1 = 1 := by simp [kernelSize]
  have e3 : kernelSize 0 vs.2.2 = 1 := by simp [kernelSize]
  refine ⟨e1, e2, e3, fun v hlab => ?_⟩
  rw [expand_val, e1, e2, e3, dilate_one, dilate_one]
  rcases hlab with h | h | h <;> simp [h]

/-- Witness for the amended C9 at a concrete input. -/
theorem c9_witness :
    labelOK (exSeg1 (1, 0, 0)) ∧ labelOK (exSeg1 (0, 0, 0)) ∧
    expand_segmentation exSeg1 (1, 1, 1) 0 (1, 0, 0) = exSeg1 (1, 0, 0) ∧
    expand_segmentation exSeg1 (1, 1, 1) 0 (0, 0, 0) = exSeg1 (0, 0, 0) :=
  ⟨by simp [labelOK, exSeg1], by simp [labelOK, exSeg1],
    (c9_amended exSeg1 (1, 1, 1)).2.2.2 (1, 0, 0) (by simp [labelOK, exSeg1]),
    (c9_amended exSeg1 (1, 1, 1)).2.2.2 (0, 0, 0) (by simp [labelOK, exSeg1])⟩

/-- Pointwise characterization of `generate_random_mask` (definitional). -/
theorem random_val (orig expd : Vol) (rv : ℚ) (rnd : Int → Idx3 → ℚ) (v : Idx3) :
    generate_random_mask orig expd rv rnd v =
      if (orig v == 2) || ((expd v == 2) && !(orig v == 2) && decide (rnd 2 v < clamp01 rv))
      then 2
      else if (orig v == 1) || ((expd v == 1) && !(orig v == 1) && decide (rnd 1 v < clamp01 rv))
      then 1
      else 0 := rfl

/-- A one-voxel femur segmentation volume, concrete input for counterexamples. -/
def exExpd2 : Vol := fun v => if v = (0, 0, 0) then 2 else 0

/-- The all-background volume, concrete input for counterexamples. -/
def exExpd0 : Vol := fun _ => 0

/-- A draw table whose every uniform sample is 0 (a legal `np.random.random`
value). -/
def rndZero : Int → Idx3 → ℚ := fun _ _ => 0

/-! ### Claim C2 -/

/-- Counterexample to claim C2 as stated: for the arbitrary pair of label
volumes `(exSeg1, exExpd2)` — voxel `(0,0,0)` is tibia in the original but
femur in the expanded volume — the randomizer with `random_value = 1` gives
the voxel label 2, so an originally tibia-labelled voxel does not keep its
label. -/
theorem c2_counterexample :
    exSeg1 (0, 0, 0) = 1 ∧ exExpd2 (0, 0, 0) = 2 ∧
    generate_random_mask exSeg1 exExpd2 1 rndZero (0, 0, 0) = 2 := by
  refine ⟨by decide, by decide, ?_⟩
  rw [random_val]
  norm_num [exSeg1, exExpd2, rndZero, clamp01]

/-- Claim C2 (amended): for every `(original, expanded)` pair in which the
expanded volume keeps every originally labelled voxel at its label (as the
Mask Expander guarantees, C3), every `random_value` and every draw table, the
randomizer's output is monotone per label: originally labelled voxels keep
their label, and a voxel only receives a label carried by the expanded volume
at that voxel. -/
theorem c2_amended (orig expd : Vol) (rv : ℚ) (rnd : Int → Idx3 → ℚ)
    (hmono : ∀ w, (orig w = 1 → expd w = 1) ∧ (orig w = 2 → expd w = 2)) (v : Idx3) :
    (orig v = 1 → generate_random_mask orig expd rv rnd v = 1) ∧
    (orig v = 2 → generate_random_mask orig expd rv rnd v = 2) ∧
    (generate_random_mask orig expd rv rnd v = 1 → expd v = 1) ∧
    (generate_random_mask orig expd rv rnd v = 2 → expd v = 2) := by
  refine ⟨?_, ?_, ?_, ?_⟩
  · intro hv
    have he := (hmono v).1 hv
    rw [random_val]
    simp [hv, he]
  · intro hv
    rw [random_val]
    simp [hv]
  · intro hout
    rw [random_val] at hout
    by_cases h2 : ((orig v == 2) || ((expd v == 2) && !(orig v == 2) &&
        decide (rnd 2 v < clamp01 rv))) = true
    · rw [if_pos h2] at hout
      norm_num at hout
    · rw [if_neg h2] at hout
      by_cases h1 : ((orig v == 1) || ((expd v == 1) && !(orig v == 1) &&
          decide (rnd 1 v < clamp01 rv))) = true
      · simp only [Bool.or_eq_true, Bool.and_eq_true, beq_iff_eq] at h1
        rcases h1 with h1 | ⟨⟨h1, _⟩, _⟩
        · exact (hmono v).1 h1
        · exact h1
      · rw [if_neg h1] at hout
        norm_num at hout
  · intro hout
    rw [random_val] at hout
    by_cases h2 : ((orig v == 2) || ((expd v == 2) && !(orig v == 2) &&
        decide (rnd 2 v < clamp01 rv))) = true
    · simp only [Bool.or_eq_true, Bool.and_eq_true, beq_iff_eq] at h2
      rcases h2 with h2 | ⟨⟨h2, _⟩, _⟩
      · exact (hmono v).2 h2
      · exact h2
    · rw [if_neg h2] at hout
      by_cases h1 : ((orig v == 1) || ((expd v == 1) && !(orig v == 1) &&
          decide (rnd 1 v < clamp01 rv))) = true
      · rw [if_pos h1] at hout
        norm_num at hout
      · rw [if_neg h1] at hout
        norm_num at hout

/-- Witness for the amended C2 at a concrete input: with the identity pair
`(exSeg1, exSeg1)` the single tibia voxel keeps its label. -/
theorem c2_witness :
    exSeg1 (0, 0, 0) = 1 ∧
    generate_random_mask exSeg1 exSeg1 (1 / 2) rndZero (0, 0, 0) = 1 :=
  ⟨by decide,
    (c2_amended exSeg1 exSeg1 (1 / 2) rndZero
      (fun _ => ⟨fun h => h, fun h => h⟩) (0, 0, 0)).1 (by decide)⟩

/-! ### Claim C4 -/

/-- Counterexample to claim C4 as stated: for the arbitrary pair of label
volumes `(exSeg1, exExpd0)` — voxel `(0,0,0)` is tibia in the original but
background in the expanded volume — the randomizer with `random_value = 1.0`
outputs label 1 there, not the expanded volume's label 0, so it does not
reproduce the expanded mask exactly for every input pair (the draws used are
legal `np.random.random` values). -/
theorem c4_counterexample :
    exSeg1 (0, 0, 0) = 1 ∧ exExpd0 (0, 0, 0) = 0 ∧
    (0 : ℚ) ≤ rndZero 1 (0, 0, 0) ∧ rndZero 1 (0, 0, 0) < 1 ∧
    generate_random_mask exSeg1 exExpd0 1 rndZero (0, 0, 0) = 1 := by
  refine ⟨by decide, by decide, by norm_num [rndZero], by norm_num [rndZero], ?_⟩
  rw [random_val]
  norm_num [exSeg1, exExpd0, rndZero, clamp01]

/-- Claim C4 (amended): for every `(original, expanded)` pair of label
volumes in which the expanded volume keeps every originally labelled voxel at
its label (as the Mask Expander guarantees, C3), and for legal uniform draws
(in `[0, 1)`), the randomizer with `random_value = 1.0` reproduces the
expanded mask exactly and with `random_value = 0.0` reproduces the original
mask exactly. -/
theorem c4_amended (orig expd : Vol) (rnd : Int → Idx3 → ℚ)
    (hr : ∀ l w, 0 ≤ rnd l w ∧ rnd l w < 1)
    (hmono : ∀ w, (orig w = 1 → expd w = 1) ∧ (orig w = 2 → expd w = 2))
    (hdom : ∀ w, labelOK (orig w) ∧ labelOK (expd w)) (v : Idx3) :
    generate_random_mask orig expd 1 rnd v = expd v ∧
    generate_random_mask orig expd 0 rnd v = orig v := by
  constructor
  · rw [random_val]
    have hc : clamp01 1 = 1 := by norm_num [clamp01]
    rw [hc]
    have hd2 : decide (rnd 2 v < 1) = true := decide_eq_true (hr 2 v).2
    have hd1 : decide (rnd 1 v < 1) = true := decide_eq_true (hr 1 v).2
    rw [hd1, hd2]
    rcases (hdom v).2 with h | h | h
    · have ho : orig v = 0 := by
        rcases (hdom v).1 with h' | h' | h'
        · exact h'
        · have he := (hmono v).1 h'
          rw [he] at h
          norm_num at h
        · have he := (hmono v).2 h'
          rw [he] at h
          norm_num at h
      simp [h, ho]
    · have ho2 : orig v ≠ 2 := by
        intro h'
        have he := (hmono v).2 h'
        rw [he] at h
        norm_num at h
      simp [h, ho2]
    · simp [h]
  · rw [random_val]
    have hc : clamp01 0 = 0 := by norm_num [clamp01]
    rw [hc]
    have hd2 : decide (rnd 2 v < 0) = false :=
      decide_eq_false (not_lt.mpr (hr 2 v).1)
    have hd1 : decide (rnd 1 v < 0) = false :=
      decide_eq_false (not_lt.mpr (hr 1 v).1)
    rw [hd1, hd2]
    rcases (hdom v).1 with h | h | h <;> simp [h]

/-- The example volume `exSeg1` is a label volume. -/
theorem labelOK_exSeg1 (w : Idx3) : labelOK (exSeg1 w) := by
  unfold labelOK exSeg1
  split
  · right
    left
    rfl
  · left
    rfl

/-- Witness for the amended C4 at a concrete input. -/
theorem c4_witness :
    generate_random_mask exSeg1 exSeg1 1 rndZero (0, 0, 0) = exSeg1 (0, 0, 0) ∧
    generate_random_mask exSeg1 exSeg1 0 rndZero (1, 0, 0) = exSeg1 (1, 0, 0) :=
  ⟨(c4_amended exSeg1 exSeg1 rndZero
      (fun _ _ => ⟨by norm_num [rndZero], by norm_num [rndZero]⟩)
      (fun _ => ⟨fun h => h, fun h => h⟩)
      (fun w => ⟨labelOK_exSeg1 w, labelOK_exSeg1 w⟩) (0, 0, 0)).1,
   (c4_amended exSeg1 exSeg1 rndZero
      (fun _ _ => ⟨by norm_num [rndZero], by norm_num [rndZero]⟩)
      (fun _ => ⟨fun h => h, fun h => h⟩)
      (fun w => ⟨labelOK_exSeg1 w, labelOK_exSeg1 w⟩) (1, 0, 0)).2⟩

/-! ### Claim C5 -/

/-- Characterization of `find_joint_position` (definitional). -/
theorem fjp_val (smooth : List ℚ → List ℚ) (m : Mask2) (w h : Nat) :
    find_joint_position smooth m w h =
      if 5 < (middleProfile (smooth (verticalProfile m w h)) h).length then
        if (localMinIndices (middleProfile (smooth (verticalProfile m w h)) h)).isEmpty then h / 2
        else h / 3 + argminAt (middleProfile (smooth (verticalProfile m w h)) h)
          (localMinIndices (middleProfile (smooth (verticalProfile m w h)) h))
      else h / 2 := rfl

theorem mem_localMinIndices (p : List ℚ) (j : Nat) (hj : j ∈ localMinIndices p) :
    2 ≤ j ∧ j + 2 < p.length ∧
    p.getD j 0 < p.getD (j - 1) 0 ∧ p.getD j 0 < p.getD (j + 1) 0 := by
  simp only [localMinIndices, List.mem_filter, List.mem_range, Bool.and_eq_true,
    decide_eq_true_eq] at hj
  exact ⟨hj.2.1.1.1, hj.2.1.1.2, hj.2.1.2, hj.2.2⟩

theorem middleProfile_length_le (sp : List ℚ) (h : Nat) :
    (middleProfile sp h).length ≤ 2 * h / 3 - h / 3 := by
  simp only [middleProfile, List.length_take]
  exact min_le_left _ _

theorem foldl_argmin_mem (p : List ℚ) :
    ∀ (js : List Nat) (b : Nat),
      js.foldl (fun a k => if p.getD k 0 < p.getD a 0 then k else a) b ∈ b :: js := by
  intro js
  induction js with
  | nil =>
    intro b
    exact List.mem_singleton.mpr rfl
  | cons a js ih =>
    intro b
    simp only [List.foldl_cons]
    rcases List.mem_cons.mp (ih (if p.getD a 0 < p.getD b 0 then a else b)) with h1 | h1
    · rw [h1]
      split
      · exact List.mem_cons_of_mem _ (List.mem_cons_self _ _)
      · exact List.mem_cons_self _ _
    · exact List.mem_cons_of_mem _ (List.mem_cons_of_mem _ h1)

theorem foldl_argmin_le (p : List ℚ) :
    ∀ (js : List Nat) (b : Nat), ∀ k ∈ b :: js,
      p.getD (js.foldl (fun a k => if p.getD k 0 < p.getD a 0 then k else a) b) 0 ≤
        p.getD k 0 := by
  intro js
  induction js with
  | nil =>
    intro b k hk
    rw [List.mem_singleton] at hk
    rw [hk]
    simp
  | cons a js ih =>
    intro b k hk
    simp only [List.foldl_cons]
    by_cases hab : p.getD a 0 < p.getD b 0
    · rw [if_pos hab]
      have hres : p.getD (js.foldl (fun a k => if p.getD k 0 < p.getD a 0 then k else a) a) 0 ≤
          p.getD a 0 := ih a a (List.mem_cons_self _ _)
      rcases List.mem_cons.mp hk with h1 | h1
      · rw [h1]
        exact le_trans hres (le_of_lt hab)
      · rcases List.mem_cons.mp h1 with h2 | h2
        · rw [h2]
          exact hres
        · exact ih a k (List.mem_cons_of_mem _ h2)
    · rw [if_neg hab]
      have hres : p.getD (js.foldl (fun a k => if p.getD k 0 < p.getD a 0 then k else a) b) 0 ≤
          p.getD b 0 := ih b b (List.mem_cons_self _ _)
      rcases List.mem_cons.mp hk with h1 | h1
      · rw [h1]
        exact hres
      · rcases List.mem_cons.mp h1 with h2 | h2
        · rw [h2]
          exact le_trans hres (le_of_not_lt hab)
        · exact ih b k (List.mem_cons_of_mem _ h2)

theorem argminAt_sound (p : List ℚ) (js : List Nat) (hne : js ≠ []) :
    argminAt p js ∈ js ∧ ∀ k ∈ js, p.getD (argminAt p js) 0 ≤ p.getD k 0 := by
  cases js with
  | nil => exact absurd rfl hne
  | cons j js =>
    exact ⟨foldl_argmin_mem p js j, fun k hk => foldl_argmin_le p js j k hk⟩

/-- The identity smoothing, a concrete stand-in for the external Gaussian
filter in counterexamples and witnesses. -/
def idSmooth : List ℚ → List ℚ := fun l => l

/-- Column bone counts of the concrete slice mask `exMask`. -/
def exCounts : Int → Nat := fun z => if z = 7 then 0 else if z = 6 ∨ z = 8 then 1 else 3

/-- A concrete bone mask of width 3 whose vertical profile at height 16 has
its middle third equal to `[3, 1, 0, 1, 3]` (length exactly 5). -/
def exMask : Mask2 := fun x z => decide (0 ≤ x) && decide (x < (exCounts z : Int))

/-- Counterexample to claim C5 as stated: for the bone mask `exMask` at
height 16 the (identity-smoothed) middle-third profile is `[3, 1, 0, 1, 3]`,
whose scanned window `range(2, len - 2)` contains the strict local minimum at
window index 2; the claim demands `middle_start + 2 = 16 / 3 + 2 = 7`, but the
locator returns `16 / 2 = 8` because the `len > 5` guard skips the length-5
window. -/
theorem c5_counterexample :
    localMinIndices (middleProfile (idSmooth (verticalProfile exMask 3 16)) 16) = [2] ∧
    find_joint_position idSmooth exMask 3 16 = 8 ∧ 16 / 3 + 2 ≠ 8 := by
  refine ⟨by decide, by decide, by decide⟩

/-- Claim C5 (amended): if the middle-third window of the smoothed profile has
length at most 5 or carries no interior local minimum, the Joint Locator
returns exactly `height / 2`; if the window is longer than 5 and has interior
local minima, it returns `middle_start` plus a candidate local minimum of
minimal smoothed value, an index inside the middle third. -/
theorem c5_amended (smooth : List ℚ → List ℚ) (m : Mask2) (w h : Nat) (mp : List ℚ)
    (hmp : mp = middleProfile (smooth (verticalProfile m w h)) h) :
    ((mp.length ≤ 5 ∨ localMinIndices mp = []) → find_joint_position smooth m w h = h / 2) ∧
    (5 < mp.length → localMinIndices mp ≠ [] →
      h / 3 ≤ find_joint_position smooth m w h ∧
      find_joint_position smooth m w h < 2 * h / 3 ∧
      ∃ j ∈ localMinIndices mp, find_joint_position smooth m w h = h / 3 + j ∧
        ∀ k ∈ localMinIndices mp, mp.getD j 0 ≤ mp.getD k 0) := by
  subst hmp
  rw [fjp_val]
  constructor
  · rintro (hlen | hmins)
    · rw [if_neg (not_lt.mpr hlen)]
    · rw [hmins]
      split
      · rfl
      · rfl
  · intro hlen hne
    rw [if_pos hlen, if_neg (by simpa [List.isEmpty_iff] using hne)]
    obtain ⟨hmem, hmin⟩ := argminAt_sound _ _ hne
    set j := argminAt (middleProfile (smooth (verticalProfile m w h)) h)
      (localMinIndices (middleProfile (smooth (verticalProfile m w h)) h)) with hj
    obtain ⟨-, hjlt, -, -⟩ := mem_localMinIndices _ _ hmem
    have hmple := middleProfile_length_le (smooth (verticalProfile m w h)) h
    have hdiv : h / 3 ≤ 2 * h / 3 := Nat.div_le_div_right (by omega)
    refine ⟨Nat.le_add_right _ _, by omega, j, hmem, rfl, hmin⟩

/-- Column bone counts of the concrete slice mask `exMask2`. -/
def exCounts2 : Int → Nat := fun z =>
  if z = 9 then 1 else if z = 8 ∨ z = 10 then 3 else if z = 7 then 4 else 5

/-- A concrete bone mask of width 5 whose vertical profile at height 18 has
middle third `[5, 4, 3, 1, 3, 5]` (length 6, local minimum at window index
3). -/
def exMask2 : Mask2 := fun x z => decide (0 ≤ x) && decide (x < (exCounts2 z : Int))

/-- Witness for the amended C5 at concrete inputs: both branches are
exercised. -/
theorem c5_witness :
    find_joint_position idSmooth exMask 3 16 = 16 / 2 ∧
    (18 / 3 ≤ find_joint_position idSmooth exMask2 5 18 ∧
      find_joint_position idSmooth exMask2 5 18 < 2 * 18 / 3 ∧
      ∃ j ∈ localMinIndices (middleProfile (idSmooth (verticalProfile exMask2 5 18)) 18),
        find_joint_position idSmooth exMask2 5 18 = 18 / 3 + j ∧
        ∀ k ∈ localMinIndices (middleProfile (idSmooth (verticalProfile exMask2 5 18)) 18),
          (middleProfile (idSmooth (verticalProfile exMask2 5 18)) 18).getD j 0 ≤
            (middleProfile (idSmooth (verticalProfile exMask2 5 18)) 18).getD k 0) :=
  ⟨(c5_amended idSmooth exMask 3 16 _ rfl).1 (Or.inl (by decide)),
   (c5_amended idSmooth exMask2 5 18 _ rfl).2 (by decide) (by decide)⟩

/-! ### Claim C8 -/

/-- Characterization of `segment_slice` (definitional). -/
theorem segment_slice_val (rm50 rm100 : Mask2 → Mask2) (smooth : List ℚ → List ℚ)
    (s : CSlice) (thr : ℚ) :
    segment_slice rm50 rm100 smooth s thr =
      if maxIntensity s < thr then (none, none)
      else
        (some (rm100 fun x z => create_bone_mask rm50 s thr x z &&
          decide (z < (find_joint_position smooth (create_bone_mask rm50 s thr) s.w s.h : Int))),
         some (rm100 fun x z => create_bone_mask rm50 s thr x z &&
          decide ((find_joint_position smooth (create_bone_mask rm50 s thr) s.w s.h : Int) ≤ z))) :=
  rfl

/-- Claim C8: for every 2-D intensity slice whose maximum intensity is below
the bone threshold, the Slice Segmenter returns `(None, None)` and the Volume
Assembler leaves the label volume unchanged at that slice; otherwise it
returns a `(femur_mask, tibia_mask)` pair. -/
theorem c8_below_threshold (rm50 rm100 : Mask2 → Mask2) (smooth : List ℚ → List ℚ)
    (s : CSlice) (thr : ℚ) (vol : Vol) (i : Int) (_hw : 0 < s.w) (_hh : 0 < s.h) :
    (maxIntensity s < thr →
      segment_slice rm50 rm100 smooth s thr = (none, none) ∧
      assemble_step vol i (segment_slice rm50 rm100 smooth s thr) = vol) ∧
    (¬ maxIntensity s < thr →
      ∃ femur tibia, segment_slice rm50 rm100 smooth s thr = (some femur, some tibia)) := by
  constructor
  · intro hlt
    have hval : segment_slice rm50 rm100 smooth s thr = (none, none) := by
      rw [segment_slice_val, if_pos hlt]
    exact ⟨hval, by rw [hval]; rfl⟩
  · intro hge
    rw [segment_slice_val, if_neg hge]
    exact ⟨_, _, rfl⟩

/-- A concrete all-zero 1×1 slice (maximum intensity 0). -/
def exSlice0 : CSlice := ⟨1, 1, fun _ _ => 0⟩

/-- A concrete 1×1 slice of intensity 300 (above the default threshold). -/
def exSliceHot : CSlice := ⟨1, 1, fun _ _ => 300⟩

/-- Witness for C8 at concrete inputs: the cold slice yields `(None, None)`
and leaves the volume unpainted; the hot slice yields a pair of masks. -/
theorem c8_witness :
    segment_slice id id idSmooth exSlice0 200 = (none, none) ∧
    assemble_step exSeg1 0 (segment_slice id id idSmooth exSlice0 200) = exSeg1 ∧
    ∃ femur tibia, segment_slice id id idSmooth exSliceHot 200 = (some femur, some tibia) :=
  ⟨((c8_below_threshold id id idSmooth exSlice0 200 exSeg1 0 (by decide) (by decide)).1
      (by decide)).1,
   ((c8_below_threshold id id idSmooth exSlice0 200 exSeg1 0 (by decide) (by decide)).1
      (by decide)).2,
   (c8_below_threshold id id idSmooth exSliceHot 200 exSeg1 0 (by decide) (by decide)).2
      (by decide)⟩

/-! ### Claim C6 -/

theorem mem_tibiaIndices (v : Vol3) (p : Nat × Nat × Nat) :
    p ∈ tibiaIndices v ↔
      p.1 < v.nx ∧ p.2.1 < v.ny ∧ p.2.2 < v.nz ∧ v.lab p.1 p.2.1 p.2.2 = 1 := by
  obtain ⟨x, y, z⟩ := p
  simp only [tibiaIndices, List.mem_flatMap, List.mem_filterMap, List.mem_range]
  constructor
  · rintro ⟨a, ha, b, hb, c, hc, hif⟩
    by_cases hl : v.lab a b c = 1
    · rw [if_pos hl] at hif
      obtain ⟨rfl, rfl, rfl⟩ : a = x ∧ b = y ∧ c = z := by
        simpa [Prod.ext_iff] using hif
      exact ⟨ha, hb, hc, hl⟩
    · rw [if_neg hl] at hif
      exact absurd hif (by simp)
  · rintro ⟨hx, hy, hz, hlab⟩
    exact ⟨x, hx, y, hy, z, hz, by rw [if_pos hlab]⟩

/-- Claim C6: on a label volume containing no voxel labelled 1 the Tibia
Landmark Finder returns `(None, None, None, None)` — no landmark in either mm
or voxel form. -/
theorem c6_empty_tibia (v : Vol3) (vs : ℚ × ℚ × ℚ)
    (hempty : ∀ x y z, x < v.nx → y < v.ny → z < v.nz → v.lab x y z ≠ 1) :
    find_tibia_lowest_points v vs = (none, none, none, none) := by
  have hnil : tibiaIndices v = [] := by
    rw [List.eq_nil_iff_forall_not_mem]
    intro p hp
    obtain ⟨hx, hy, hz, hlab⟩ := (mem_tibiaIndices v p).mp hp
    exact hempty _ _ _ hx hy hz hlab
  rw [find_tibia_lowest_points, if_pos hnil]

/-- A concrete all-background volume. -/
def exVolEmpty : Vol3 := ⟨1, 1, 1, fun _ _ _ => 0⟩

/-- Witness for C6 at a concrete input. -/
theorem c6_witness :
    find_tibia_lowest_points exVolEmpty (1, 1, 1) = (none, none, none, none) :=
  c6_empty_tibia exVolEmpty (1, 1, 1) (fun _ _ _ _ _ _ => by norm_num [exVolEmpty])

/-! ### Claim C7 -/

/-- Claim C7: for every voxel index triple and positive voxel spacing, the
Tibia Landmark Finder's voxel-to-mm conversion followed by its mm-to-voxel
conversion (divide and truncate with `int()`) recovers the original voxel
indices exactly. -/
theorem c7_roundtrip (p : Nat × Nat × Nat) (vs : ℚ × ℚ × ℚ)
    (h1 : 0 < vs.1) (h2 : 0 < vs.2.1) (h3 : 0 < vs.2.2) :
    mmToVoxel vs (voxelToMm vs p) = ((p.1 : Int), (p.2.1 : Int), (p.2.2 : Int)) := by
  have key : ∀ (n : Nat) (q : ℚ), 0 < q → truncToInt ((n : ℚ) * q / q) = n := by
    intro n q hq
    rw [mul_div_assoc, div_self (ne_of_gt hq), mul_one, truncToInt,
      if_pos (Nat.cast_nonneg n)]
    exact Int.floor_natCast n
  simp only [mmToVoxel, voxelToMm]
  rw [key p.1 vs.1 h1, key p.2.1 vs.2.1 h2, key p.2.2 vs.2.2 h3]

/-- Witness for C7 at a concrete input. -/
theorem c7_witness :
    (0 : ℚ) < 2 ∧ (0 : ℚ) < 3 ∧ (0 : ℚ) < 5 ∧
    mmToVoxel (2, 3, 5) (voxelToMm (2, 3, 5) (4, 1, 7)) = (4, 1, 7) :=
  ⟨by norm_num, by norm_num, by norm_num,
    c7_roundtrip (4, 1, 7) (2, 3, 5) (by norm_num) (by norm_num) (by norm_num)⟩

/-! ### Claim C10 -/

theorem exists_ge_mean (xs : List ℚ) (hne : xs ≠ []) :
    ∃ x ∈ xs, xs.sum ≤ (xs.length : ℚ) * x := by
  induction xs with
  | nil => exact absurd rfl hne
  | cons a xs ih =>
    rcases eq_or_ne xs [] with h | h
    · subst h
      exact ⟨a, List.mem_cons_self _ _, by simp⟩
    · obtain ⟨x, hx, hsum⟩ := ih h
      have hlen : (0 : ℚ) ≤ (xs.length : ℚ) := by positivity
      by_cases hax : a ≤ x
      · refine ⟨x, List.mem_cons_of_mem _ hx, ?_⟩
        rw [List.sum_cons, List.length_cons]
        push_cast
        nlinarith
      · refine ⟨a, List.mem_cons_self _ _, ?_⟩
        have hxa : x ≤ a := le_of_not_le hax
        have hmul : (xs.length : ℚ) * x ≤ (xs.length : ℚ) * a :=
          mul_le_mul_of_nonneg_left hxa hlen
        rw [List.sum_cons, List.length_cons]
        push_cast
        nlinarith

theorem sum_map_sub_const (xs : List ℚ) (c : ℚ) :
    (xs.map fun x => x - c).sum = xs.sum - (xs.length : ℚ) * c := by
  induction xs with
  | nil => simp
  | cons a xs ih =>
    rw [List.map_cons, List.sum_cons, List.sum_cons, ih, List.length_cons]
    push_cast
    ring

theorem all_zero_of_nonneg_sum_zero (xs : List ℚ) (hpos : ∀ x ∈ xs, 0 ≤ x)
    (hsum : xs.sum = 0) : ∀ x ∈ xs, x = 0 := by
  induction xs with
  | nil => simp
  | cons a xs ih =>
    have ha : 0 ≤ a := hpos a (List.mem_cons_self _ _)
    have hxs : ∀ x ∈ xs, 0 ≤ x := fun x hx => hpos x (List.mem_cons_of_mem _ hx)
    have hsx : 0 ≤ xs.sum := List.sum_nonneg hxs
    rw [List.sum_cons] at hsum
    intro x hx
    rcases List.mem_cons.mp hx with h | h
    · rw [h]
      linarith
    · exact ih hxs (by linarith) x h

theorem sum_of_constant (xs : List ℚ) (c : ℚ) (hall : ∀ x ∈ xs, x = c) :
    xs.sum = (xs.length : ℚ) * c := by
  induction xs with
  | nil => simp
  | cons a xs ih =>
    have ha : a = c := hall a (List.mem_cons_self _ _)
    rw [List.sum_cons, List.length_cons,
      ih (fun x hx => hall x (List.mem_cons_of_mem _ hx)), ha]
    push_cast
    ring

theorem argminZ_eq_none_iff (l : List (ℚ × ℚ × ℚ)) : argminZ l = none ↔ l = [] := by
  cases l <;> simp [argminZ]

/-- Claim C10: on a label volume with at least one tibia voxel and positive
voxel spacing, the Tibia Landmark Finder's medial result (mm and voxel form)
is never `None` — some tibia point always has X coordinate at or above the
mean X — while the lateral result is `None` exactly when all tibia voxels
share the same X coordinate. -/
theorem c10_medial_lateral (v : Vol3) (vs : ℚ × ℚ × ℚ)
    (h1 : 0 < vs.1) (_h2 : 0 < vs.2.1) (_h3 : 0 < vs.2.2)
    (hne : ∃ x y z, x < v.nx ∧ y < v.ny ∧ z < v.nz ∧ v.lab x y z = 1) :
    (find_tibia_lowest_points v vs).1 ≠ none ∧
    (find_tibia_lowest_points v vs).2.2.1 ≠ none ∧
    ((find_tibia_lowest_points v vs).2.1 = none ↔
      ∀ p ∈ tibiaIndices v, ∀ q ∈ tibiaIndices v, p.1 = q.1) ∧
    ((find_tibia_lowest_points v vs).2.2.2 = none ↔
      ∀ p ∈ tibiaIndices v, ∀ q ∈ tibiaIndices v, p.1 = q.1) := by
  have hidx : tibiaIndices v ≠ [] := by
    obtain ⟨x, y, z, hx, hy, hz, hl⟩ := hne
    intro hcontra
    have hmem : (x, y, z) ∈ tibiaIndices v :=
      (mem_tibiaIndices v (x, y, z)).mpr ⟨hx, hy, hz, hl⟩
    rw [hcontra] at hmem
    exact absurd hmem (List.not_mem_nil _)
  have hfind : find_tibia_lowest_points v vs =
      (argminZ (medialPts v vs), argminZ (lateralPts v vs),
        (argminZ (medialPts v vs)).map (mmToVoxel vs),
        (argminZ (lateralPts v vs)).map (mmToVoxel vs)) := by
    rw [find_tibia_lowest_points, if_neg hidx]
  have hpts : tibiaPts v vs ≠ [] := by
    simp [tibiaPts, List.map_eq_nil_iff, hidx]
  have hlen : (0 : ℚ) < ((tibiaPts v vs).length : ℚ) := by
    exact_mod_cast List.length_pos.mpr hpts
  have hmed : medialPts v vs ≠ [] := by
    have hxs : ((tibiaPts v vs).map fun p => p.1) ≠ [] := by
      simp [List.map_eq_nil_iff, hpts]
    obtain ⟨x0, hx0mem, hx0⟩ := exists_ge_mean _ hxs
    obtain ⟨p0, hp0, hp0x⟩ := List.mem_map.mp hx0mem
    rw [List.length_map] at hx0
    have hcx : centerX (tibiaPts v vs) ≤ x0 := by
      rw [centerX, div_le_iff₀ hlen, mul_comm]
      exact hx0
    intro hnil
    have hmem : p0 ∈ medialPts v vs := by
      refine List.mem_filter.mpr ⟨hp0, ?_⟩
      simp only [decide_eq_true_eq, hp0x]
      exact hcx
    rw [hnil] at hmem
    exact absurd hmem (List.not_mem_nil _)
  have hlat : lateralPts v vs = [] ↔
      ∀ p ∈ tibiaIndices v, ∀ q ∈ tibiaIndices v, p.1 = q.1 := by
    constructor
    · intro hnil
      have hall : ∀ p ∈ tibiaPts v vs, centerX (tibiaPts v vs) ≤ p.1 := by
        intro p hp
        have hnp := List.filter_eq_nil_iff.mp hnil p hp
        simp only [decide_eq_true_eq] at hnp
        exact not_lt.mp hnp
      have hmulcx : ((tibiaPts v vs).length : ℚ) * centerX (tibiaPts v vs) =
          ((tibiaPts v vs).map fun p => p.1).sum := by
        rw [centerX, mul_comm, div_mul_cancel₀]
        exact ne_of_gt hlen
      have hmaps : ((tibiaPts v vs).map fun p => p.1 - centerX (tibiaPts v vs)) =
          ((tibiaPts v vs).map fun p => p.1).map fun x => x - centerX (tibiaPts v vs) := by
        rw [List.map_map]
        rfl
      have hsum0 : ((tibiaPts v vs).map fun p => p.1 - centerX (tibiaPts v vs)).sum = 0 := by
        rw [hmaps, sum_map_sub_const, List.length_map]
        rw [hmulcx]
        ring
      have hsub : ∀ y ∈ (tibiaPts v vs).map fun p => p.1 - centerX (tibiaPts v vs), 0 ≤ y := by
        intro y hy
        obtain ⟨p, hp, rfl⟩ := List.mem_map.mp hy
        have := hall p hp
        linarith
      have hfst : ∀ p ∈ tibiaPts v vs, p.1 = centerX (tibiaPts v vs) := by
        intro p hp
        have hy : p.1 - centerX (tibiaPts v vs) ∈
            (tibiaPts v vs).map fun p => p.1 - centerX (tibiaPts v vs) :=
          List.mem_map_of_mem _ hp
        have := all_zero_of_nonneg_sum_zero _ hsub hsum0 _ hy
        linarith
      intro p hp q hq
      have hp' : voxelToMm vs p ∈ tibiaPts v vs := List.mem_map_of_mem _ hp
      have hq' : voxelToMm vs q ∈ tibiaPts v vs := List.mem_map_of_mem _ hq
      have hpv : (p.1 : ℚ) * vs.1 = centerX (tibiaPts v vs) := hfst _ hp'
      have hqv : (q.1 : ℚ) * vs.1 = centerX (tibiaPts v vs) := hfst _ hq'
      have hcast : (p.1 : ℚ) = (q.1 : ℚ) :=
        mul_right_cancel₀ (ne_of_gt h1) (hpv.trans hqv.symm)
      exact_mod_cast hcast
    · intro hall
      obtain ⟨p₀, hp₀⟩ := List.exists_mem_of_ne_nil (tibiaIndices v) hidx
      have hfst : ∀ r ∈ tibiaPts v vs, r.1 = (p₀.1 : ℚ) * vs.1 := by
        intro r hr
        obtain ⟨q, hq, rfl⟩ := List.mem_map.mp hr
        have hqp := hall q hq p₀ hp₀
        simp [voxelToMm, hqp]
      have hsum : ((tibiaPts v vs).map fun p => p.1).sum =
          ((tibiaPts v vs).length : ℚ) * ((p₀.1 : ℚ) * vs.1) := by
        have hconst := sum_of_constant ((tibiaPts v vs).map fun p => p.1)
          ((p₀.1 : ℚ) * vs.1) (by
            intro x hx
            obtain ⟨r, hr, rfl⟩ := List.mem_map.mp hx
            exact hfst r hr)
        rw [hconst, List.length_map]
      have hcx : centerX (tibiaPts v vs) = (p₀.1 : ℚ) * vs.1 := by
        rw [centerX, hsum]
        exact mul_div_cancel_left₀ _ (ne_of_gt hlen)
      apply List.filter_eq_nil_iff.mpr
      intro p hp
      simp only [decide_eq_true_eq, not_lt, hcx, hfst p hp]
      exact le_refl _
  refine ⟨?_, ?_, ?_, ?_⟩
  · rw [hfind]
    simp only [ne_eq, argminZ_eq_none_iff]
    exact hmed
  · rw [hfind]
    simp only [ne_eq, Option.map_eq_none', argminZ_eq_none_iff]
    exact hmed
  · rw [hfind]
    simp only [argminZ_eq_none_iff]
    exact hlat
  · rw [hfind]
    simp only [Option.map_eq_none', argminZ_eq_none_iff]
    exact hlat

/-- A concrete volume with two tibia voxels of distinct X coordinates. -/
def exVolTwo : Vol3 := ⟨2, 1, 1, fun _ _ _ => 1⟩

/-- Witness for C10 at a concrete input: two tibia voxels of distinct X give
a medial point and (by the iff, since the X coordinates differ) a lateral
point. -/
theorem c10_witness :
    (find_tibia_lowest_points exVolTwo (1, 1, 1)).1 ≠ none ∧
    (find_tibia_lowest_points exVolTwo (1, 1, 1)).2.1 ≠ none := by
  have h := c10_medial_lateral exVolTwo (1, 1, 1) (by norm_num) (by norm_num) (by norm_num)
    ⟨0, 0, 0, by decide⟩
  refine ⟨h.1, fun hnone => ?_⟩
  have hsame := h.2.2.1.mp hnone
  have : ¬ ∀ p ∈ tibiaIndices exVolTwo, ∀ q ∈ tibiaIndices exVolTwo, p.1 = q.1 := by decide
  exact this hsame
